import Mathlib

/-!
Verification of the customer-segmentation dashboard (`src/app.py`).

The program is a linear pipeline: load → label → filter → aggregate →
format → render.  We embed it shallowly: the data file is a
`List CustomerRecord`, every pipeline stage is a pure Lean function
translated from the corresponding pandas expression, numeric columns are
modelled over `ℚ` (the float arithmetic of the source is idealised as exact
rational arithmetic; rounding is modelled as round-half-to-even, which is
what `pandas.round` / `numpy.rint` and Python's string formatting use), and
the currency formatting / re-parsing is modelled at the level of character
lists.
-/

/-- One row of `rfm_data_cleaned.csv` after `load_data` has run
`df['Cluster'] = df['Cluster'].astype(str)`: the `Cluster` column is text,
the numeric columns are rationals. -/
structure CustomerRecord where
  customerID : Nat
  recency : ℚ
  frequency : ℚ
  monetary : ℚ
  frequencyLog : ℚ
  monetaryLog : ℚ
  cluster : String
deriving Repr, DecidableEq

/-- The static persona table of `app.py`, in source order:
`persona_names = {'3': 'High-Value Champions 🏆', '1': 'Loyal & Regular 🌟',
'0': 'New & Promising 🌱', '2': 'Lapsed Customers 😴'}`. -/
def persona_names : List (String × String) :=
  [("3", "High-Value Champions 🏆"),
   ("1", "Loyal & Regular 🌟"),
   ("0", "New & Promising 🌱"),
   ("2", "Lapsed Customers 😴")]

/-- `rfm_df['Cluster'].map(persona_names)`: exact lookup in the static
table; a code that is not a key yields `none` (pandas `NaN`). -/
def personaOf (c : String) : Option String :=
  (persona_names.find? (fun kv => kv.1 == c)).map (fun kv => kv.2)

/-- `default=list(persona_names.values())` of the sidebar multiselect. -/
def default_selection : List String := persona_names.map (fun kv => kv.2)

/-- The boolean mask `rfm_df['Persona'].isin(selected_personas)` for one
row: a labelled row is kept iff its label is selected; an unlabelled row
(`NaN` persona) is never kept. -/
def personaMem (r : CustomerRecord) (sel : List String) : Bool :=
  match personaOf r.cluster with
  | some p => sel.contains p
  | none => false

/-- `filtered_df = rfm_df[rfm_df['Persona'].isin(selected_personas)]`. -/
def filtered_df (df : List CustomerRecord) (sel : List String) : List CustomerRecord :=
  df.filter (fun r => personaMem r sel)

/-- Round half to even (banker's rounding) to an integer: the rounding used
by `numpy.rint`, `pandas.DataFrame.round` and Python's float formatting. -/
def rne (q : ℚ) : ℤ :=
  if q - ⌊q⌋ < 1/2 then ⌊q⌋
  else if 1/2 < q - ⌊q⌋ then ⌊q⌋ + 1
  else if ⌊q⌋ % 2 = 0 then ⌊q⌋ else ⌊q⌋ + 1

/-- `.round(1)` of pandas, idealised over `ℚ`. -/
def round1 (q : ℚ) : ℚ := (rne (10 * q) : ℚ) / 10

/-- Rounding to 2 decimals, as performed by the `'{:,.2f}'` format. -/
def round2 (q : ℚ) : ℚ := (rne (100 * q) : ℚ) / 100

/-- `mean` of a pandas aggregation. -/
def mean (xs : List ℚ) : ℚ := xs.sum / xs.length

/-- The digit character of a digit value: `digitChar 7 = '7'`. -/
def digitChar (d : Nat) : Char := Char.ofNat (48 + d)

/-- The digit value of a digit character: `charDigit '7' = 7`. -/
def charDigit (c : Char) : Nat := c.toNat - 48

/-- Little-endian decimal digit characters of `n`, with explicit fuel so
that the definition is structural (and kernel-reducible). -/
def natToCharsAux : Nat → Nat → List Char
  | 0, _ => []
  | _ + 1, 0 => []
  | fuel + 1, n + 1 => digitChar ((n + 1) % 10) :: natToCharsAux fuel ((n + 1) / 10)

/-- Big-endian decimal digit characters of `n`, `natToChars 0 = ['0']`. -/
def natToChars (n : Nat) : List Char :=
  if n = 0 then ['0'] else (natToCharsAux n n).reverse

/-- Thousands separators on a little-endian character list: a comma after
every three characters that have a successor. -/
def addCommasRev : List Char → List Char
  | [] => []
  | [a] => [a]
  | [a, b] => [a, b]
  | [a, b, c] => [a, b, c]
  | a :: b :: c :: d :: rest => a :: b :: c :: ',' :: addCommasRev (d :: rest)

/-- Thousands separators on a big-endian character list, grouping from the
right: `addCommas "1234567".toList` is `"1,234,567".toList`. -/
def addCommas (l : List Char) : List Char := (addCommasRev l.reverse).reverse

/-- The two decimal places of the cents value `r < 100`. -/
def twoDigit (r : Nat) : List Char := [digitChar (r / 10), digitChar (r % 10)]

/-- `'${:,.2f}'.format(q)`: dollar sign, then the sign, then the integer
part with thousands separators, then a dot and exactly two decimals, the
value being rounded half-to-even at the second decimal. -/
def formatCurrency (q : ℚ) : String :=
  String.mk ('$' ::
    ((if rne (100 * q) < 0 then ['-'] else []) ++
      addCommas (natToChars ((rne (100 * q)).natAbs / 100)) ++
      '.' :: twoDigit ((rne (100 * q)).natAbs % 100)))

/-- `.str.replace('$', '').str.replace(',', '')` of the plotting code. -/
def stripSyms (s : String) : List Char :=
  s.toList.filter (fun c => !(c == '$' || c == ','))

/-- The value of a big-endian list of digit characters. -/
def charsToNat (l : List Char) : Nat := l.foldl (fun a c => 10 * a + charDigit c) 0

/-- Value of an unsigned decimal character string `intpart.fracpart`. -/
def parseUnsigned (l : List Char) : ℚ :=
  (charsToNat (l.takeWhile (fun c => c != '.')) : ℚ) +
    (charsToNat ((l.dropWhile (fun c => c != '.')).drop 1) : ℚ) /
      10 ^ ((l.dropWhile (fun c => c != '.')).drop 1).length

/-- Value of a possibly sign-prefixed decimal character string. -/
def parseDec (l : List Char) : ℚ :=
  match l with
  | [] => 0
  | c :: t => if c = '-' then -(parseUnsigned t) else parseUnsigned (c :: t)

/-- `.astype(float)` applied after stripping `'$'` and `','`: the
`monetary_float` reconstruction of `app.py`. -/
def parseMoney (s : String) : ℚ := parseDec (stripSyms s)

/-- Lexicographic comparison of character lists by code point: the order in
which pandas sorts string group keys. -/
def charListLT : List Char → List Char → Bool
  | [], [] => false
  | [], _ :: _ => true
  | _ :: _, [] => false
  | a :: as, b :: bs =>
      if a.toNat < b.toNat then true
      else if b.toNat < a.toNat then false
      else charListLT as bs

/-- The `Persona` group keys of `filtered_df.groupby('Persona')`: the
distinct persona labels present, in ascending order (pandas sorts group
keys); rows with a `NaN` persona are dropped by `groupby`. -/
def stringLE (a b : String) : Prop := charListLT b.toList a.toList = false

instance : DecidableRel stringLE := fun a b => Bool.decEq (charListLT b.toList a.toList) false

def personaKeys (l : List CustomerRecord) : List String :=
  ((l.filterMap (fun r => personaOf r.cluster)).dedup).insertionSort stringLE

/-- `filtered_df['CustomerID'].nunique()`. -/
def totalDistinct (l : List CustomerRecord) : Nat :=
  ((l.map (fun r => r.customerID)).dedup).length

/-- One row of the `summary_table` data frame, after the rounding and the
currency formatting of `app.py` have been applied. -/
structure SegmentRow where
  persona : String
  avg_Recency_Days : ℚ
  avg_Frequency : ℚ
  avg_Monetary : String
  customer_Count : Nat
  customer_Percentage : ℚ
deriving Repr, DecidableEq

/-- The rows of one persona group: `filtered_df.groupby('Persona')` group
`p`. -/
def groupRows (l : List CustomerRecord) (p : String) : List CustomerRecord :=
  l.filter (fun r => personaOf r.cluster == some p)

/-- The aggregated summary row of one persona group:
`Avg_Recency_Days=('Recency','mean')` rounded to 1 decimal,
`Avg_Frequency=('Frequency','mean')` rounded to 1 decimal,
`Avg_Monetary=('Monetary','mean')` formatted as currency,
`Customer_Count=('CustomerID','count')` (the number of rows of the group),
`Customer_Percentage = (Customer_Count / filtered_df['CustomerID'].nunique()
* 100).round(1)`. -/
def summaryRow (l : List CustomerRecord) (p : String) : SegmentRow :=
  { persona := p
    avg_Recency_Days := round1 (mean ((groupRows l p).map (fun r => r.recency)))
    avg_Frequency := round1 (mean ((groupRows l p).map (fun r => r.frequency)))
    avg_Monetary := formatCurrency (mean ((groupRows l p).map (fun r => r.monetary)))
    customer_Count := (groupRows l p).length
    customer_Percentage :=
      round1 (((groupRows l p).length : ℚ) / (totalDistinct l : ℚ) * 100) }

/-- `summary_table`: one aggregated row per persona present, in group-key
order. -/
def summary_table (l : List CustomerRecord) : List SegmentRow :=
  (personaKeys l).map (summaryRow l)

/-- The sort relation of
`summary_table.sort_values(by='Customer_Count', ascending=False)`. -/
def countGE (a b : SegmentRow) : Prop := b.customer_Count ≤ a.customer_Count

instance : DecidableRel countGE := fun a b => Nat.decLe b.customer_Count a.customer_Count

instance : IsTotal SegmentRow countGE :=
  ⟨fun a b => Nat.le_total b.customer_Count a.customer_Count⟩

instance : IsTrans SegmentRow countGE :=
  ⟨fun _ _ _ hab hbc => le_trans hbc hab⟩

/-- The summary table as displayed:
`summary_table.sort_values(by='Customer_Count', ascending=False)`. -/
def displayed_summary (l : List CustomerRecord) : List SegmentRow :=
  (summary_table l).insertionSort countGE

/-- The three KPI scalars of the dashboard. -/
structure KPIs where
  total_customers : Nat
  total_revenue : ℚ
  unique_segments : Nat
deriving Repr, DecidableEq

/-- Everything the dashboard renders below the sidebar when neither guard
fires. -/
structure PageOutput where
  kpis : KPIs
  displayed_table : List SegmentRow
  recency_chart : List (String × ℚ)
  frequency_chart : List (String × ℚ)
  monetary_chart : List (String × ℚ)
  scatter_points : List (ℚ × ℚ × Option String × ℚ)
deriving Repr, DecidableEq

/-- The page content computed from the filtered table: the KPIs, the sorted
summary table, the three bar charts (the Monetary one from the re-parsed
currency strings) and the scatter plot over the row-level filtered data. -/
def renderPage (df : List CustomerRecord) (sel : List String) : PageOutput :=
  { kpis :=
      { total_customers := totalDistinct (filtered_df df sel)
        total_revenue := ((filtered_df df sel).map (fun r => r.monetary)).sum
        unique_segments :=
          (((filtered_df df sel).filterMap (fun r => personaOf r.cluster)).dedup).length }
    displayed_table := displayed_summary (filtered_df df sel)
    recency_chart :=
      (summary_table (filtered_df df sel)).map (fun r => (r.persona, r.avg_Recency_Days))
    frequency_chart :=
      (summary_table (filtered_df df sel)).map (fun r => (r.persona, r.avg_Frequency))
    monetary_chart :=
      (summary_table (filtered_df df sel)).map (fun r => (r.persona, parseMoney r.avg_Monetary))
    scatter_points :=
      (filtered_df df sel).map
        (fun r => (r.frequencyLog, r.monetaryLog, personaOf r.cluster, r.recency)) }

/-- The outcome of one render pass. -/
inductive RenderResult where
  | dataError : RenderResult
  | emptyWarning : RenderResult
  | page : PageOutput → RenderResult
deriving Repr, DecidableEq

/-- The page content of a render outcome, if any. -/
def pageOf : RenderResult → Option PageOutput
  | RenderResult.page p => some p
  | _ => none

/-- The whole render pass: `load_data()` returning `None` short-circuits
via `if rfm_df is not None`; an empty selection short-circuits via
`st.warning` / `st.stop()`; otherwise the page is rendered. -/
def renderPass : Option (List CustomerRecord) → List String → RenderResult
  | none, _ => RenderResult.dataError
  | some df, sel =>
      if sel.isEmpty then RenderResult.emptyWarning else RenderResult.page (renderPage df sel)

/-- A helper to build concrete records compactly. -/
def mkRec (i : Nat) (c : String) : CustomerRecord :=
  { customerID := i, recency := 0, frequency := 0, monetary := 0,
    frequencyLog := 0, monetaryLog := 0, cluster := c }

/-- A table with a duplicated `CustomerID` inside one persona group. -/
def dfDup : List CustomerRecord := [mkRec 7 "0", mkRec 7 "0"]

/-- A table of 16 distinct customers split 1/1/1/13 over the four
clusters: every persona percentage then lands exactly on a rounding tie. -/
def dfTie : List CustomerRecord :=
  [mkRec 1 "0", mkRec 2 "1", mkRec 3 "2"] ++
    (List.range 13).map (fun i => mkRec (4 + i) "3")

/-- A one-customer table used to instantiate hypotheses of the claim
theorems at a concrete input. -/
def dfOne : List CustomerRecord := [mkRec 1 "0"]

/-! ## Rounding lemmas -/

theorem abs_rne_sub_le (q : ℚ) : |(rne q : ℚ) - q| ≤ 1/2 := by
  have h1 : ((⌊q⌋ : ℤ) : ℚ) ≤ q := Int.floor_le q
  have h2 : q < (⌊q⌋ : ℚ) + 1 := Int.lt_floor_add_one q
  unfold rne
  split_ifs with ha hb hc
  · rw [abs_le]
    constructor <;> linarith
  · rw [abs_le]
    push_cast
    constructor <;> linarith
  · rw [abs_le]
    constructor <;> linarith
  · rw [abs_le]
    push_cast
    constructor <;> linarith

theorem abs_round1_sub_le (q : ℚ) : |round1 q - q| ≤ 1/20 := by
  have h := abs_rne_sub_le (10 * q)
  have h10 : round1 q - q = ((rne (10 * q) : ℚ) - 10 * q) / 10 := by
    unfold round1
    ring
  rw [h10, abs_div]
  rw [show |(10 : ℚ)| = 10 by norm_num]
  linarith

theorem abs_round2_sub_le (q : ℚ) : |round2 q - q| ≤ 1/200 := by
  have h := abs_rne_sub_le (100 * q)
  have h100 : round2 q - q = ((rne (100 * q) : ℚ) - 100 * q) / 100 := by
    unfold round2
    ring
  rw [h100, abs_div]
  rw [show |(100 : ℚ)| = 100 by norm_num]
  linarith

theorem rne_of_lt {q : ℚ} {f : ℤ} (hf : ⌊q⌋ = f) (h : q - f < 1/2) : rne q = f := by
  unfold rne
  rw [hf, if_pos h]

theorem rne_of_tie_even {q : ℚ} {f : ℤ} (hf : ⌊q⌋ = f) (h : q - f = 1/2)
    (he : f % 2 = 0) : rne q = f := by
  unfold rne
  rw [hf, if_neg (by rw [h]; exact lt_irrefl _), if_neg (by rw [h]; exact lt_irrefl _),
    if_pos he]

/-! ## Digit character lemmas -/

/-- A character that renders a decimal digit. -/
def IsDigitChar (c : Char) : Prop := ∃ k, k < 10 ∧ c = digitChar k

theorem charDigit_digitChar {k : Nat} (h : k < 10) : charDigit (digitChar k) = k := by
  interval_cases k <;> decide

theorem digitChar_ne_dollar {k : Nat} (h : k < 10) : digitChar k ≠ '$' := by
  interval_cases k <;> decide

theorem digitChar_ne_comma {k : Nat} (h : k < 10) : digitChar k ≠ ',' := by
  interval_cases k <;> decide

theorem digitChar_ne_dot {k : Nat} (h : k < 10) : digitChar k ≠ '.' := by
  interval_cases k <;> decide

theorem digitChar_ne_minus {k : Nat} (h : k < 10) : digitChar k ≠ '-' := by
  interval_cases k <;> decide

theorem natToCharsAux_digits :
    ∀ fuel n : Nat, ∀ c ∈ natToCharsAux fuel n, IsDigitChar c := by
  intro fuel
  induction fuel with
  | zero => intro n c hc; simp [natToCharsAux] at hc
  | succ f ih =>
    intro n c hc
    match n with
    | 0 => simp [natToCharsAux] at hc
    | m + 1 =>
      rw [natToCharsAux] at hc
      rcases List.mem_cons.mp hc with h | h
      · exact ⟨(m + 1) % 10, Nat.mod_lt _ (by norm_num), h⟩
      · exact ih _ c h

theorem natToChars_digits (n : Nat) : ∀ c ∈ natToChars n, IsDigitChar c := by
  intro c hc
  unfold natToChars at hc
  split at hc
  · rw [List.mem_singleton] at hc
    exact ⟨0, by norm_num, by rw [hc]; rfl⟩
  · exact natToCharsAux_digits _ _ c (List.mem_reverse.mp hc)

theorem natToChars_ne_nil (n : Nat) : natToChars n ≠ [] := by
  unfold natToChars
  split
  · simp
  · rename_i h
    match n, h with
    | m + 1, _ =>
      rw [natToCharsAux]
      simp

theorem charsToNat_append_one (l : List Char) (c : Char) :
    charsToNat (l ++ [c]) = 10 * charsToNat l + charDigit c := by
  simp [charsToNat, List.foldl_append]

theorem charsToNat_natToCharsAux :
    ∀ fuel n : Nat, n ≤ fuel → charsToNat ((natToCharsAux fuel n).reverse) = n := by
  intro fuel
  induction fuel with
  | zero =>
    intro n h
    interval_cases n
    simp [natToCharsAux, charsToNat]
  | succ f ih =>
    intro n h
    match n with
    | 0 => simp [natToCharsAux, charsToNat]
    | m + 1 =>
      have hdiv : (m + 1) / 10 ≤ f := by
        have := Nat.div_lt_self (Nat.succ_pos m) (show 1 < 10 by norm_num)
        omega
      rw [natToCharsAux, List.reverse_cons, charsToNat_append_one, ih _ hdiv,
        charDigit_digitChar (Nat.mod_lt _ (by norm_num))]
      exact Nat.div_add_mod (m + 1) 10

theorem charsToNat_natToChars (n : Nat) : charsToNat (natToChars n) = n := by
  unfold natToChars
  split
  · rename_i h
    rw [h]
    decide
  · exact charsToNat_natToCharsAux n n le_rfl

/-! ## Thousands separators and stripping -/

theorem filter_addCommasRev (p : Char → Bool) (hp : p ',' = false) :
    ∀ l : List Char, (addCommasRev l).filter p = l.filter p
  | [] => rfl
  | [_] => rfl
  | [_, _] => rfl
  | [_, _, _] => rfl
  | a :: b :: c :: d :: rest => by
      rw [addCommasRev]
      simp only [List.filter_cons, hp]
      rw [filter_addCommasRev p hp (d :: rest)]
      simp [List.filter_cons]

theorem filter_addCommas (p : Char → Bool) (hp : p ',' = false) (ds : List Char)
    (hds : ∀ c ∈ ds, p c = true) :
    (addCommas ds).filter p = ds := by
  unfold addCommas
  rw [List.filter_reverse, filter_addCommasRev p hp, List.filter_reverse,
    List.reverse_reverse, List.filter_eq_self.mpr hds]

theorem stripSyms_mk (l : List Char) :
    stripSyms (String.mk l) = l.filter (fun c => !(c == '$' || c == ',')) := rfl

theorem keep_of_digit {c : Char} (hc : IsDigitChar c) :
    (!(c == '$' || c == ',')) = true := by
  obtain ⟨k, hk, rfl⟩ := hc
  have h1 : (digitChar k == '$') = false :=
    beq_eq_false_iff_ne.mpr (digitChar_ne_dollar hk)
  have h2 : (digitChar k == ',') = false :=
    beq_eq_false_iff_ne.mpr (digitChar_ne_comma hk)
  rw [h1, h2]
  rfl

theorem stripSyms_formatCurrency (q : ℚ) :
    stripSyms (formatCurrency q) =
      (if rne (100 * q) < 0 then ['-'] else []) ++
        natToChars ((rne (100 * q)).natAbs / 100) ++
        '.' :: twoDigit ((rne (100 * q)).natAbs % 100) := by
  unfold formatCurrency
  rw [stripSyms_mk, List.filter_cons, if_neg (by decide), List.filter_append,
    List.filter_append]
  congr 1
  · congr 1
    · split <;> rfl
    · exact filter_addCommas _ rfl _ (fun c hc => keep_of_digit (natToChars_digits _ c hc))
  · rw [List.filter_cons, if_pos (by decide)]
    congr 1
    unfold twoDigit
    rw [List.filter_cons, if_pos (keep_of_digit ⟨_, by omega, rfl⟩),
      List.filter_cons, if_pos (keep_of_digit ⟨_, by omega, rfl⟩)]
    rfl

/-! ## Parsing the formatted currency string back -/

theorem takeWhile_dropWhile_dot (l2 : List Char) :
    ∀ l1 : List Char, (∀ c ∈ l1, (c != '.') = true) →
      (l1 ++ '.' :: l2).takeWhile (fun c => c != '.') = l1 ∧
      (l1 ++ '.' :: l2).dropWhile (fun c => c != '.') = '.' :: l2 := by
  intro l1
  induction l1 with
  | nil =>
    intro _
    constructor
    · rw [List.nil_append, List.takeWhile_cons]
      simp
    · rw [List.nil_append, List.dropWhile_cons]
      simp
  | cons a t ih =>
    intro h
    have ha : (a != '.') = true := h a (List.mem_cons_self a t)
    have ht := ih (fun c hc => h c (List.mem_cons_of_mem a hc))
    constructor
    · rw [List.cons_append, List.takeWhile_cons, if_pos ha, ht.1]
    · rw [List.cons_append, List.dropWhile_cons, if_pos ha, ht.2]

theorem parseUnsigned_split (ic fp : List Char) (hic : ∀ c ∈ ic, IsDigitChar c) :
    parseUnsigned (ic ++ '.' :: fp) =
      (charsToNat ic : ℚ) + (charsToNat fp : ℚ) / 10 ^ fp.length := by
  have h : ∀ c ∈ ic, (c != '.') = true := by
    intro c hc
    obtain ⟨k, hk, rfl⟩ := hic c hc
    exact bne_iff_ne.mpr (digitChar_ne_dot hk)
  obtain ⟨h1, h2⟩ := takeWhile_dropWhile_dot fp ic h
  unfold parseUnsigned
  rw [h1, h2]
  rfl

theorem charsToNat_twoDigit {r : Nat} (hr : r < 100) : charsToNat (twoDigit r) = r := by
  unfold twoDigit charsToNat
  rw [List.foldl_cons, List.foldl_cons, List.foldl_nil,
    charDigit_digitChar (by omega), charDigit_digitChar (by omega)]
  omega

theorem parseUnsigned_int_frac (mi r : Nat) (hr : r < 100) :
    parseUnsigned (natToChars mi ++ '.' :: twoDigit r) = (mi : ℚ) + (r : ℚ) / 100 := by
  rw [parseUnsigned_split _ _ (natToChars_digits mi), charsToNat_natToChars,
    charsToNat_twoDigit hr]
  norm_num [twoDigit]

theorem parseDec_cons (c : Char) (t : List Char) :
    parseDec (c :: t) = if c = '-' then -(parseUnsigned t) else parseUnsigned (c :: t) := rfl

theorem parseDec_pos (ic fp : List Char) (hic : ∀ c ∈ ic, IsDigitChar c)
    (hne : ic ≠ []) :
    parseDec (ic ++ '.' :: fp) = parseUnsigned (ic ++ '.' :: fp) := by
  match ic, hne with
  | c :: t, _ =>
    obtain ⟨k, hk, hck⟩ := hic c (List.mem_cons_self c t)
    rw [List.cons_append, parseDec_cons,
      if_neg (by rw [hck]; exact digitChar_ne_minus hk)]

theorem parseDec_cents (n : ℤ) :
    parseDec ((if n < 0 then ['-'] else []) ++ natToChars (n.natAbs / 100) ++
      '.' :: twoDigit (n.natAbs % 100)) = (n : ℚ) / 100 := by
  have hmod : n.natAbs % 100 < 100 := by omega
  have hval : ((n.natAbs / 100 : ℕ) : ℚ) + ((n.natAbs % 100 : ℕ) : ℚ) / 100 =
      ((n.natAbs : ℕ) : ℚ) / 100 := by
    have h2 : ((n.natAbs : ℕ) : ℚ) =
        100 * ((n.natAbs / 100 : ℕ) : ℚ) + ((n.natAbs % 100 : ℕ) : ℚ) := by
      exact_mod_cast (Nat.div_add_mod n.natAbs 100).symm
    rw [h2]
    ring
  by_cases hneg : n < 0
  · rw [if_pos hneg, List.singleton_append, List.cons_append, parseDec_cons, if_pos rfl,
      parseUnsigned_int_frac _ _ hmod, hval]
    have habs : ((n.natAbs : ℕ) : ℚ) = -((n : ℤ) : ℚ) := by
      rw [Int.cast_natAbs, abs_of_neg hneg]
      push_cast
      ring
    rw [habs]
    ring
  · rw [if_neg hneg, List.nil_append,
      parseDec_pos _ _ (natToChars_digits _) (natToChars_ne_nil _),
      parseUnsigned_int_frac _ _ hmod, hval]
    have habs : ((n.natAbs : ℕ) : ℚ) = ((n : ℤ) : ℚ) := by
      rw [Int.cast_natAbs, abs_of_nonneg (not_lt.mp hneg)]
    rw [habs]

theorem parseMoney_formatCurrency (q : ℚ) : parseMoney (formatCurrency q) = round2 q := by
  unfold parseMoney
  rw [stripSyms_formatCurrency, parseDec_cents]
  rfl

/-! ## Persona lookup, filtering and group keys -/

theorem personaOf_mem_values {c p : String} (h : personaOf c = some p) :
    p ∈ persona_names.map (fun kv => kv.2) := by
  unfold personaOf at h
  cases hf : persona_names.find? (fun kv => kv.1 == c) with
  | none => rw [hf] at h; exact nomatch h
  | some kv =>
    rw [hf] at h
    obtain rfl : kv.2 = p := Option.some.inj h
    exact List.mem_map.mpr ⟨kv, List.mem_of_find?_eq_some hf, rfl⟩

theorem personaOf_eq_none {c : String} (h : c ∉ ["0", "1", "2", "3"]) :
    personaOf c = none := by
  unfold personaOf
  rw [List.find?_eq_none.mpr]
  · rfl
  · intro kv hkv
    simp only [persona_names, List.mem_cons, List.not_mem_nil, or_false] at hkv
    simp only [List.mem_cons, List.not_mem_nil, or_false] at h
    push_neg at h
    rcases hkv with rfl | rfl | rfl | rfl <;>
      simp only [beq_eq_false_iff_ne, ne_eq] <;> intro hc <;> simp_all

theorem personaMem_iff {r : CustomerRecord} {sel : List String} :
    personaMem r sel = true ↔ ∃ p ∈ sel, personaOf r.cluster = some p := by
  unfold personaMem
  cases h : personaOf r.cluster with
  | none => simp
  | some p =>
    simp only [List.contains, Option.some.injEq]
    constructor
    · intro he
      exact ⟨p, List.elem_iff.mp he, rfl⟩
    · rintro ⟨q, hq, rfl⟩
      exact List.elem_iff.mpr hq

theorem mem_filtered_iff {df : List CustomerRecord} {sel : List String}
    {r : CustomerRecord} :
    r ∈ filtered_df df sel ↔ r ∈ df ∧ ∃ p ∈ sel, personaOf r.cluster = some p := by
  unfold filtered_df
  rw [List.mem_filter, personaMem_iff]

theorem mem_personaKeys {l : List CustomerRecord} {p : String} :
    p ∈ personaKeys l ↔ ∃ r ∈ l, personaOf r.cluster = some p := by
  unfold personaKeys
  rw [(List.perm_insertionSort stringLE _).mem_iff, List.mem_dedup, List.mem_filterMap]

theorem nodup_personaKeys (l : List CustomerRecord) : (personaKeys l).Nodup := by
  unfold personaKeys
  exact (List.perm_insertionSort stringLE _).nodup_iff.mpr (List.nodup_dedup _)

theorem personaKeys_length_le (l : List CustomerRecord) : (personaKeys l).length ≤ 4 := by
  have hperm := List.perm_insertionSort stringLE
    ((l.filterMap (fun r => personaOf r.cluster)).dedup)
  rw [show (personaKeys l).length =
      ((l.filterMap (fun r => personaOf r.cluster)).dedup).length from hperm.length_eq]
  have hnd : ((l.filterMap (fun r => personaOf r.cluster)).dedup).Nodup :=
    List.nodup_dedup _
  have hsub : ∀ p ∈ (l.filterMap (fun r => personaOf r.cluster)).dedup,
      p ∈ persona_names.map (fun kv => kv.2) := by
    intro p hp
    rw [List.mem_dedup, List.mem_filterMap] at hp
    obtain ⟨r, _, hr⟩ := hp
    exact personaOf_mem_values hr
  calc ((l.filterMap (fun r => personaOf r.cluster)).dedup).length
      = ((l.filterMap (fun r => personaOf r.cluster)).dedup).toFinset.card :=
        (List.toFinset_card_of_nodup hnd).symm
    _ ≤ (persona_names.map (fun kv => kv.2)).toFinset.card := by
        apply Finset.card_le_card
        intro x hx
        rw [List.mem_toFinset] at hx
        rw [List.mem_toFinset]
        exact hsub x hx
    _ ≤ (persona_names.map (fun kv => kv.2)).length :=
        List.toFinset_card_le (persona_names.map (fun kv => kv.2))
    _ = 4 := rfl

/-! ## Summary table projections -/

theorem summary_persona_map (l : List CustomerRecord) :
    (summary_table l).map (fun row => row.persona) = personaKeys l := by
  unfold summary_table
  rw [List.map_map]
  exact List.map_id _

theorem summary_count_map (l : List CustomerRecord) :
    (summary_table l).map (fun row => row.customer_Count) =
      (personaKeys l).map (fun p => (groupRows l p).length) := by
  unfold summary_table
  rw [List.map_map]
  rfl

theorem summary_percentage_map (l : List CustomerRecord) :
    (summary_table l).map (fun row => row.customer_Percentage) =
      (personaKeys l).map
        (fun p => round1 (((groupRows l p).length : ℚ) / (totalDistinct l : ℚ) * 100)) := by
  unfold summary_table
  rw [List.map_map]
  rfl

/-! ## Counting helpers for the percentage invariant -/

theorem sum_beq_indicator {β : Type} [BEq β] [LawfulBEq β] (p0 : β) :
    ∀ ks : List β, ks.Nodup → p0 ∈ ks →
      (ks.map (fun p => if p0 == p then (1 : ℕ) else 0)).sum = 1 := by
  intro ks
  induction ks with
  | nil => intro _ h; exact absurd h (List.not_mem_nil p0)
  | cons a t ih =>
    intro hnd hmem
    rw [List.map_cons, List.sum_cons]
    by_cases ha : p0 = a
    · subst ha
      rw [if_pos (beq_self_eq_true p0)]
      have hnotin : p0 ∉ t := (List.nodup_cons.mp hnd).1
      have hz : (t.map (fun p => if p0 == p then (1 : ℕ) else 0)).sum = 0 := by
        rw [List.sum_eq_zero]
        intro x hx
        rw [List.mem_map] at hx
        obtain ⟨p, hp, rfl⟩ := hx
        rw [if_neg]
        intro hbeq
        exact hnotin (by rw [eq_of_beq hbeq]; exact hp)
      rw [hz]
    · rw [if_neg (by intro hbeq; exact ha (eq_of_beq hbeq))]
      have hmem2 : p0 ∈ t := by
        rcases List.mem_cons.mp hmem with h | h
        · exact absurd h ha
        · exact h
      rw [ih (List.nodup_cons.mp hnd).2 hmem2]

theorem sum_map_add_split {β : Type} (f g : β → ℕ) :
    ∀ ks : List β, (ks.map (fun p => f p + g p)).sum = (ks.map f).sum + (ks.map g).sum := by
  intro ks
  induction ks with
  | nil => rfl
  | cons a t ih =>
    rw [List.map_cons, List.sum_cons, ih, List.map_cons, List.sum_cons,
      List.map_cons, List.sum_cons]
    omega

theorem length_eq_sum_groups {α β : Type} [BEq β] [LawfulBEq β] (key : α → Option β) :
    ∀ (l : List α) (ks : List β), ks.Nodup →
      (∀ r ∈ l, ∃ p ∈ ks, key r = some p) →
      (ks.map (fun p => (l.filter (fun r => key r == some p)).length)).sum = l.length := by
  intro l
  induction l with
  | nil =>
    intro ks _ _
    rw [List.length_nil, List.sum_eq_zero]
    intro x hx
    rw [List.mem_map] at hx
    obtain ⟨p, _, rfl⟩ := hx
    rfl
  | cons a t ih =>
    intro ks hnd hcomp
    obtain ⟨p0, hp0, hkey⟩ := hcomp a (List.mem_cons_self a t)
    have hstep : ∀ p ∈ ks,
        ((a :: t).filter (fun r => key r == some p)).length =
          (if p0 == p then (1 : ℕ) else 0) + (t.filter (fun r => key r == some p)).length := by
      intro p _
      rw [List.filter_cons]
      by_cases hpp : p0 = p
      · subst hpp
        rw [if_pos (by rw [hkey]; exact beq_self_eq_true (some p0)),
          if_pos (beq_self_eq_true p0), List.length_cons]
        omega
      · rw [if_neg (by
            rw [hkey]
            intro hbeq
            exact hpp (Option.some.inj (eq_of_beq hbeq))),
          if_neg (by intro hbeq; exact hpp (eq_of_beq hbeq))]
        omega
    rw [List.map_congr_left hstep, sum_map_add_split, sum_beq_indicator p0 ks hnd hp0,
      ih ks hnd (fun r hr => hcomp r (List.mem_cons_of_mem a hr)), List.length_cons]
    omega

theorem sum_map_cast_div_mul {β : Type} (ks : List β) (f : β → ℕ) (T c : ℚ) :
    (ks.map (fun p => (f p : ℚ) / T * c)).sum = ((ks.map f).sum : ℚ) / T * c := by
  induction ks with
  | nil => simp
  | cons a t ih =>
    rw [List.map_cons, List.sum_cons, ih, List.map_cons, List.sum_cons]
    push_cast
    ring

theorem abs_sum_sub_sum_le {β : Type} (c : ℚ) (f g : β → ℚ) :
    ∀ ks : List β, (∀ p ∈ ks, |f p - g p| ≤ c) →
      |(ks.map f).sum - (ks.map g).sum| ≤ (ks.length : ℚ) * c := by
  intro ks
  induction ks with
  | nil => intro _; simp
  | cons a t ih =>
    intro h
    have ha := h a (List.mem_cons_self a t)
    have ht := ih (fun p hp => h p (List.mem_cons_of_mem a hp))
    rw [List.map_cons, List.sum_cons, List.map_cons, List.sum_cons, List.length_cons]
    have htri : |f a + (t.map f).sum - (g a + (t.map g).sum)| ≤
        |f a - g a| + |(t.map f).sum - (t.map g).sum| := by
      have := abs_add (f a - g a) ((t.map f).sum - (t.map g).sum)
      calc |f a + (t.map f).sum - (g a + (t.map g).sum)|
          = |f a - g a + ((t.map f).sum - (t.map g).sum)| := by ring_nf
        _ ≤ |f a - g a| + |(t.map f).sum - (t.map g).sum| := this
    push_cast
    linarith

/-! ## The unrounded percentages of a duplicate-free filtered table sum to 100 -/

theorem percentage_sum_exact (df : List CustomerRecord) (sel : List String)
    (hne : filtered_df df sel ≠ [])
    (hnodup : ((filtered_df df sel).map (fun r => r.customerID)).Nodup) :
    ((personaKeys (filtered_df df sel)).map
      (fun p => ((groupRows (filtered_df df sel) p).length : ℚ) /
        (totalDistinct (filtered_df df sel) : ℚ) * 100)).sum = 100 := by
  have hT : totalDistinct (filtered_df df sel) = (filtered_df df sel).length := by
    unfold totalDistinct
    rw [List.dedup_eq_self.mpr hnodup, List.length_map]
  have hcomp : ∀ r ∈ filtered_df df sel,
      ∃ p ∈ personaKeys (filtered_df df sel), personaOf r.cluster = some p := by
    intro r hr
    have hmem := (mem_filtered_iff.mp hr).2
    obtain ⟨p, _, hp⟩ := hmem
    exact ⟨p, mem_personaKeys.mpr ⟨r, hr, hp⟩, hp⟩
  have hpart : ((personaKeys (filtered_df df sel)).map
      (fun p => (groupRows (filtered_df df sel) p).length)).sum =
        (filtered_df df sel).length :=
    length_eq_sum_groups (fun r : CustomerRecord => personaOf r.cluster)
      (filtered_df df sel) (personaKeys (filtered_df df sel)) (nodup_personaKeys _) hcomp
  rw [sum_map_cast_div_mul, hpart, hT]
  have hlen : ((filtered_df df sel).length : ℚ) ≠ 0 := by
    have : (filtered_df df sel).length ≠ 0 := by
      intro h0
      exact hne (List.length_eq_zero.mp h0)
    exact_mod_cast this
  field_simp

/-! ## Claim theorems -/

/-- C2 counterexample: the Persona attached to cluster code `"0"` is the
emoji-suffixed string of the source (`'New & Promising 🌱'`), not the plain
`"New & Promising"` of the static table quoted by the claim. -/
theorem persona_label_differs_from_plain_table :
    personaOf "0" = some "New & Promising 🌱" ∧
    ¬ personaOf "0" = some "New & Promising" := by
  exact ⟨rfl, by decide⟩

/-- C2 (amended): the Persona column is an exact lookup in the static
four-entry table whose values are the emoji-suffixed strings
`{"0": "New & Promising 🌱", "1": "Loyal & Regular 🌟",
"2": "Lapsed Customers 😴", "3": "High-Value Champions 🏆"}`; every row with
one of these four codes gets exactly that string and every other code gets
no Persona label. -/
theorem persona_static_lookup :
    personaOf "0" = some "New & Promising 🌱" ∧
    personaOf "1" = some "Loyal & Regular 🌟" ∧
    personaOf "2" = some "Lapsed Customers 😴" ∧
    personaOf "3" = some "High-Value Champions 🏆" ∧
    ∀ c : String, c ∉ ["0", "1", "2", "3"] → personaOf c = none :=
  ⟨rfl, rfl, rfl, rfl, fun _ hc => personaOf_eq_none hc⟩

/-- Witness for the C2 theorem at the concrete unmapped code `"42"`. -/
theorem persona_static_lookup_witness :
    personaOf "0" = some "New & Promising 🌱" ∧ personaOf "42" = none :=
  ⟨persona_static_lookup.1, persona_static_lookup.2.2.2.2 "42" (by decide)⟩

/-- C7: when the source file is absent (`load_data()` returns `None`), the
render pass reports the data error and produces no page content for any
selection: no labeling, filtering, aggregation or chart runs. -/
theorem missing_data_halts (sel : List String) :
    renderPass none sel = RenderResult.dataError ∧
    pageOf (renderPass none sel) = none := ⟨rfl, rfl⟩

/-- C6: an empty persona selection makes the render pass stop with the
warning: no KPIs, no summary table and no chart are produced. -/
theorem empty_selection_halts (df : List CustomerRecord) (sel : List String)
    (h : sel = []) :
    renderPass (some df) sel = RenderResult.emptyWarning ∧
    pageOf (renderPass (some df) sel) = none := by
  subst h
  exact ⟨rfl, rfl⟩

/-- Witness for the C6 theorem at a concrete table and the empty
selection. -/
theorem empty_selection_halts_witness :
    renderPass (some dfOne) [] = RenderResult.emptyWarning ∧
    pageOf (renderPass (some dfOne) []) = none :=
  empty_selection_halts dfOne [] rfl

/-- C10: a row whose Cluster code is not one of `"0".."3"` gets no Persona,
is excluded from the filtered table under every selection, and dropping all
such rows from the input leaves the filtered table (hence every KPI,
summary row and chart computed from it) unchanged. -/
theorem unknown_cluster_rows_excluded (df : List CustomerRecord) (sel : List String)
    (r : CustomerRecord) (hc : r.cluster ∉ ["0", "1", "2", "3"]) :
    personaOf r.cluster = none ∧
    r ∉ filtered_df df sel ∧
    filtered_df df sel =
      filtered_df (df.filter (fun x => (personaOf x.cluster).isSome)) sel := by
  have hnone := personaOf_eq_none hc
  refine ⟨hnone, ?_, ?_⟩
  · intro hmem
    obtain ⟨-, p, -, hp⟩ := mem_filtered_iff.mp hmem
    rw [hnone] at hp
    exact Option.noConfusion hp
  · unfold filtered_df
    rw [List.filter_filter]
    apply List.filter_congr
    intro x _
    cases hx : personaOf x.cluster with
    | none => simp [personaMem, hx]
    | some p => simp [personaMem, hx]

/-- Witness for the C10 theorem at the concrete unmapped code `"9"`. -/
theorem unknown_cluster_rows_excluded_witness :
    personaOf (mkRec 1 "9").cluster = none ∧
    (mkRec 1 "9") ∉ filtered_df [mkRec 1 "9"] default_selection ∧
    filtered_df [mkRec 1 "9"] default_selection =
      filtered_df ([mkRec 1 "9"].filter (fun x => (personaOf x.cluster).isSome))
        default_selection :=
  unknown_cluster_rows_excluded [mkRec 1 "9"] default_selection (mkRec 1 "9") (by decide)

/-- C4: filtering is a pure subset operation: the filtered table is an
order-preserving sublist of the input, its members are exactly the input
rows whose Persona belongs to the selection, and every selected row keeps
its multiplicity. -/
theorem filtered_df_exact_subset (df : List CustomerRecord) (sel : List String) :
    List.Sublist (filtered_df df sel) df ∧
    (∀ r, r ∈ filtered_df df sel ↔ r ∈ df ∧ ∃ p ∈ sel, personaOf r.cluster = some p) ∧
    (∀ r, (∃ p ∈ sel, personaOf r.cluster = some p) →
      (filtered_df df sel).count r = df.count r) := by
  refine ⟨List.filter_sublist df, fun r => mem_filtered_iff, fun r hr => ?_⟩
  unfold filtered_df
  exact List.count_filter (personaMem_iff.mpr hr)

/-- Witness for the C4 theorem at a concrete table, selection and row. -/
theorem filtered_df_exact_subset_witness :
    (filtered_df dfOne default_selection).count (mkRec 1 "0") =
      dfOne.count (mkRec 1 "0") :=
  (filtered_df_exact_subset dfOne default_selection).2.2 (mkRec 1 "0") (by decide)

/-- C8: for a non-empty selection the percentage computation never divides
by zero: every summary row only exists when the filtered table has a
positive number of distinct customers, and a selected persona with no rows
after filtering contributes no summary row at all. -/
theorem no_division_by_zero_in_percentage (df : List CustomerRecord)
    (sel : List String) (_hsel : sel ≠ []) :
    (∀ row ∈ summary_table (filtered_df df sel),
      0 < totalDistinct (filtered_df df sel)) ∧
    (∀ p ∈ sel, groupRows (filtered_df df sel) p = [] →
      p ∉ (summary_table (filtered_df df sel)).map (fun row => row.persona)) := by
  constructor
  · intro row hrow
    unfold summary_table at hrow
    obtain ⟨p, hp, -⟩ := List.mem_map.mp hrow
    obtain ⟨r, hr, -⟩ := mem_personaKeys.mp hp
    have hid : r.customerID ∈ (filtered_df df sel).map (fun x => x.customerID) :=
      List.mem_map.mpr ⟨r, hr, rfl⟩
    have hid2 : r.customerID ∈ ((filtered_df df sel).map (fun x => x.customerID)).dedup :=
      List.mem_dedup.mpr hid
    unfold totalDistinct
    exact List.length_pos.mpr (List.ne_nil_of_mem hid2)
  · intro p _ hempty hmem
    rw [summary_persona_map] at hmem
    obtain ⟨r, hr, hpr⟩ := mem_personaKeys.mp hmem
    have hg : r ∈ groupRows (filtered_df df sel) p := by
      unfold groupRows
      rw [List.mem_filter]
      exact ⟨hr, by rw [hpr]; exact beq_self_eq_true (some p)⟩
    rw [hempty] at hg
    exact List.not_mem_nil r hg

/-- Witness for the C8 theorem at a concrete table and the default
selection. -/
theorem no_division_by_zero_in_percentage_witness :
    0 < totalDistinct (filtered_df dfOne default_selection) := by
  refine (no_division_by_zero_in_percentage dfOne default_selection (by decide)).1
    (summaryRow (filtered_df dfOne default_selection) "New & Promising 🌱") ?_
  unfold summary_table
  rw [show personaKeys (filtered_df dfOne default_selection) = ["New & Promising 🌱"]
    from by decide]
  exact List.mem_map.mpr ⟨"New & Promising 🌱", List.mem_singleton.mpr rfl, rfl⟩

/-- C9: the displayed summary table is sorted by `Customer_Count`
descending, is a permutation of the aggregated table (so tied personas all
appear), and equal filtered inputs give equal displayed output. -/
theorem displayed_summary_sorted_desc (l1 l2 : List CustomerRecord) (h : l1 = l2) :
    List.Sorted (fun a b : ℕ => b ≤ a)
      ((displayed_summary l1).map (fun row => row.customer_Count)) ∧
    (displayed_summary l1).Perm (summary_table l1) ∧
    (∀ row ∈ summary_table l1, row ∈ displayed_summary l1) ∧
    displayed_summary l1 = displayed_summary l2 := by
  have hsorted : List.Sorted countGE (displayed_summary l1) :=
    List.sorted_insertionSort countGE (summary_table l1)
  have hperm : (displayed_summary l1).Perm (summary_table l1) :=
    List.perm_insertionSort countGE (summary_table l1)
  refine ⟨?_, hperm, fun row hrow => hperm.mem_iff.mpr hrow, by rw [h]⟩
  exact List.Pairwise.map _ (fun a b hab => hab) hsorted

/-- Witness for the C9 theorem at a concrete table. -/
theorem displayed_summary_sorted_desc_witness :
    List.Sorted (fun a b : ℕ => b ≤ a)
      ((displayed_summary dfOne).map (fun row => row.customer_Count)) ∧
    (displayed_summary dfOne).Perm (summary_table dfOne) ∧
    (∀ row ∈ summary_table dfOne, row ∈ displayed_summary dfOne) ∧
    displayed_summary dfOne = displayed_summary dfOne :=
  displayed_summary_sorted_desc dfOne dfOne rfl

/-- C1 counterexample: on a filtered table with a duplicated `CustomerID`
inside one group, `Customer_Count` is the row count of the group, not the
distinct-`CustomerID` count the claim states. -/
theorem customer_count_not_distinct_on_duplicate_ids :
    ¬ ∀ row ∈ summary_table (filtered_df dfDup default_selection),
        row.customer_Count =
          totalDistinct (groupRows (filtered_df dfDup default_selection) row.persona) := by
  decide

/-- C1 (amended): `Customer_Count` is the number of rows of the persona
group, `Customer_Percentage` equals that count divided by the total number
of distinct `CustomerID` of the filtered table, times 100, rounded to one
decimal; when no `CustomerID` occurs in more than one filtered row, the row
count coincides with the distinct-`CustomerID` count of the group, as the
claim states. -/
theorem customer_count_row_count_and_percentage (df : List CustomerRecord)
    (sel : List String) (row : SegmentRow)
    (hrow : row ∈ summary_table (filtered_df df sel)) :
    row.customer_Count = (groupRows (filtered_df df sel) row.persona).length ∧
    row.customer_Percentage =
      round1 ((row.customer_Count : ℚ) /
        (totalDistinct (filtered_df df sel) : ℚ) * 100) ∧
    (((filtered_df df sel).map (fun r => r.customerID)).Nodup →
      row.customer_Count =
        totalDistinct (groupRows (filtered_df df sel) row.persona)) := by
  unfold summary_table at hrow
  obtain ⟨p, hp, rfl⟩ := List.mem_map.mp hrow
  refine ⟨rfl, rfl, fun hnodup => ?_⟩
  have hgnd : ((groupRows (filtered_df df sel) p).map (fun r => r.customerID)).Nodup :=
    hnodup.sublist ((List.filter_sublist _).map _)
  show (groupRows (filtered_df df sel) p).length =
    totalDistinct (groupRows (filtered_df df sel) p)
  unfold totalDistinct
  rw [List.dedup_eq_self.mpr hgnd, List.length_map]

/-- Witness for the C1 theorem at a concrete duplicate-free table. -/
theorem customer_count_row_count_and_percentage_witness :
    (summaryRow (filtered_df dfOne default_selection) "New & Promising 🌱").customer_Count =
      totalDistinct (groupRows (filtered_df dfOne default_selection)
        (summaryRow (filtered_df dfOne default_selection) "New & Promising 🌱").persona) := by
  have hmem : summaryRow (filtered_df dfOne default_selection) "New & Promising 🌱" ∈
      summary_table (filtered_df dfOne default_selection) := by
    unfold summary_table
    rw [show personaKeys (filtered_df dfOne default_selection) = ["New & Promising 🌱"]
      from by decide]
    exact List.mem_map.mpr ⟨"New & Promising 🌱", List.mem_singleton.mpr rfl, rfl⟩
  exact (customer_count_row_count_and_percentage dfOne default_selection _ hmem).2.2
    (by decide)

/-- C5: re-parsing the formatted `Avg_Monetary` currency string (strip the
dollar sign and the thousands separators, read the decimal) recovers the
mean rounded at the second decimal, hence agrees with the unrounded group
mean within half a cent. -/
theorem monetary_roundtrip (l : List CustomerRecord) (p : String) :
    parseMoney (formatCurrency (mean ((groupRows l p).map (fun r => r.monetary)))) =
      round2 (mean ((groupRows l p).map (fun r => r.monetary))) ∧
    |parseMoney (formatCurrency (mean ((groupRows l p).map (fun r => r.monetary)))) -
        mean ((groupRows l p).map (fun r => r.monetary))| ≤ 1/200 := by
  constructor
  · exact parseMoney_formatCurrency _
  · rw [parseMoney_formatCurrency]
    exact abs_round2_sub_le _

/-- C3 counterexample: 16 distinct customers split 1/1/1/13 over the four
personas give rounded percentages 6.2, 6.2, 6.2, 81.2 (all four exact
rounding ties resolved downward by round-half-to-even), which sum to 99.8:
off from 100 by 0.2, outside the claimed 0.1 tolerance. -/
theorem percentage_sum_outside_tolerance :
    filtered_df dfTie default_selection ≠ [] ∧
    ¬ |((summary_table (filtered_df dfTie default_selection)).map
        (fun row => row.customer_Percentage)).sum - 100| ≤ 1/10 := by
  constructor
  · decide
  · have hkeys : personaKeys (filtered_df dfTie default_selection) =
        ["High-Value Champions 🏆", "Lapsed Customers 😴", "Loyal & Regular 🌟",
          "New & Promising 🌱"] := by decide
    have hc3 : (groupRows (filtered_df dfTie default_selection)
        "High-Value Champions 🏆").length = 13 := by decide
    have hc2 : (groupRows (filtered_df dfTie default_selection)
        "Lapsed Customers 😴").length = 1 := by decide
    have hc1 : (groupRows (filtered_df dfTie default_selection)
        "Loyal & Regular 🌟").length = 1 := by decide
    have hc0 : (groupRows (filtered_df dfTie default_selection)
        "New & Promising 🌱").length = 1 := by decide
    have htot : totalDistinct (filtered_df dfTie default_selection) = 16 := by decide
    have h62 : rne (125/2 : ℚ) = 62 :=
      rne_of_tie_even (by norm_num) (by push_cast; norm_num) (by decide)
    have h812 : rne (1625/2 : ℚ) = 812 :=
      rne_of_tie_even (by norm_num) (by push_cast; norm_num) (by decide)
    have hr1 : round1 ((1 : ℚ) / 16 * 100) = 31/5 := by
      unfold round1
      rw [show (10 : ℚ) * (1/16*100) = 125/2 by norm_num, h62]
      norm_num
    have hr13 : round1 ((13 : ℚ) / 16 * 100) = 406/5 := by
      unfold round1
      rw [show (10 : ℚ) * (13/16*100) = 1625/2 by norm_num, h812]
      norm_num
    rw [summary_percentage_map, hkeys, List.map_cons, List.map_cons, List.map_cons,
      List.map_cons, List.map_nil, hc3, hc2, hc1, hc0, htot]
    push_cast
    rw [hr13, hr1, List.sum_cons, List.sum_cons, List.sum_cons, List.sum_cons,
      List.sum_nil]
    intro habs
    rw [abs_le] at habs
    have h1 := habs.1
    norm_num at h1

/-- C3 (amended): for every non-empty filtered table in which no
`CustomerID` occurs in more than one row, the sum of the rounded
`Customer_Percentage` values differs from 100 by at most 0.05 per persona
present; there are at most four personas, so the sum is within 0.2 of 100
(and the counterexample shows 0.2 is attained, so the claimed 0.1 cannot be
improved upon). -/
theorem percentage_sum_near_100 (df : List CustomerRecord) (sel : List String)
    (hne : filtered_df df sel ≠ [])
    (hnodup : ((filtered_df df sel).map (fun r => r.customerID)).Nodup) :
    |((summary_table (filtered_df df sel)).map
        (fun row => row.customer_Percentage)).sum - 100| ≤
      ((personaKeys (filtered_df df sel)).length : ℚ) * (1/20) ∧
    (personaKeys (filtered_df df sel)).length ≤ 4 ∧
    |((summary_table (filtered_df df sel)).map
        (fun row => row.customer_Percentage)).sum - 100| ≤ 1/5 := by
  have hexact := percentage_sum_exact df sel hne hnodup
  have hbound := abs_sum_sub_sum_le (1/20)
    (fun p => round1 (((groupRows (filtered_df df sel) p).length : ℚ) /
      (totalDistinct (filtered_df df sel) : ℚ) * 100))
    (fun p => ((groupRows (filtered_df df sel) p).length : ℚ) /
      (totalDistinct (filtered_df df sel) : ℚ) * 100)
    (personaKeys (filtered_df df sel))
    (fun p _ => abs_round1_sub_le _)
  rw [hexact] at hbound
  rw [summary_percentage_map]
  have hlen := personaKeys_length_le (filtered_df df sel)
  have hlenq : ((personaKeys (filtered_df df sel)).length : ℚ) ≤ 4 := by
    exact_mod_cast hlen
  refine ⟨hbound, hlen, ?_⟩
  calc |((personaKeys (filtered_df df sel)).map
        (fun p => round1 (((groupRows (filtered_df df sel) p).length : ℚ) /
          (totalDistinct (filtered_df df sel) : ℚ) * 100))).sum - 100|
      ≤ ((personaKeys (filtered_df df sel)).length : ℚ) * (1/20) := hbound
    _ ≤ 4 * (1/20) := by linarith
    _ = 1/5 := by norm_num

/-- Witness for the C3 theorem at a concrete one-customer table. -/
theorem percentage_sum_near_100_witness :
    |((summary_table (filtered_df dfOne default_selection)).map
        (fun row => row.customer_Percentage)).sum - 100| ≤
      ((personaKeys (filtered_df dfOne default_selection)).length : ℚ) * (1/20) :=
  (percentage_sum_near_100 dfOne default_selection (by decide) (by decide)).1
